import Mathlib

/-
Verification of the nene static site generator's content-assembly pipeline.

The Python sources are shallowly embedded as executable Lean definitions:
  * relative file paths (`pathlib.Path`) become `FPath`, a list of directory
    components plus a file name;
  * Python `dict`s become association lists with Python's insertion-order
    update semantics (`setKey` / `dictUpdate`);
  * Python `str.split(sep, maxsplit)` becomes `pySplitL`, a fuel-driven
    greedy left-to-right splitter on character lists;
  * the delegated external engines (YAML parsing, Jinja templating, base64
    decoding, HTML massaging) are passed in as opaque function parameters,
    exactly as the spec treats them (external collaborators).
-/

set_option autoImplicit false

namespace Nene

/-! ## Python string helpers -/

/-- Python `str.startswith` on our strings (character-list based). -/
def pyStartsWith (s pre : String) : Bool :=
  List.isPrefixOf pre.data s.data

/-- Python `str.endswith` on our strings (character-list based). -/
def pyEndsWith (s suf : String) : Bool :=
  List.isSuffixOf suf.data s.data

/-- The whitespace characters removed by Python `str.strip()`. -/
def pyWs (c : Char) : Bool :=
  c = ' ' || c = '\t' || c = '\n' || c = '\r' || c = '\x0b' || c = '\x0c'

/-- Python `str.strip()`: drop leading and trailing whitespace. -/
def pyStrip (s : String) : String :=
  String.mk (((s.data.dropWhile pyWs).reverse.dropWhile pyWs).reverse)

/-! ## Relative file paths

`FPath` models a relative `pathlib.Path`: the directory components
(`parts[:-1]`) and the final component (`name`). -/

structure FPath where
  dirs : List String
  name : String
deriving DecidableEq, Repr

/-- `str(path)`: components joined by `/` (relative paths only, as in the
crawler which starts from `Path(".")`). -/
def fpathStr (p : FPath) : String :=
  String.intercalate "/" (p.dirs ++ [p.name])

/-- `str(path.parent)`: the directory components joined by `/`, or `"."` for
a file in the root (pathlib's behaviour for relative single-component
paths). -/
def parentStr (p : FPath) : String :=
  if p.dirs.isEmpty then "." else String.intercalate "/" p.dirs

/-- Position of the last `.` in a file name, if any (CPython
`str.rfind('.')` used by `pathlib.PurePath.suffix`). -/
def lastDotIdx (cs : List Char) : Option Nat :=
  match (cs.reverse.findIdx? (fun c => c = '.')) with
  | none => none
  | some k => some (cs.length - 1 - k)

/-- `pathlib.PurePath.suffix` of a file name: the substring from the last
dot, provided `0 < i < len(name) - 1`; otherwise the empty string. -/
def nameSuffix (name : String) : String :=
  match lastDotIdx name.data with
  | none => ""
  | some i =>
    if 0 < i ∧ i < name.data.length - 1 then String.mk (name.data.drop i) else ""

/-- `pathlib.PurePath.stem` of a file name: the name with its suffix removed
(CPython computes `name[:len(name) - len(suffix)]`). -/
def nameStem (name : String) : String :=
  String.mk (name.data.take (name.data.length - (nameSuffix name).data.length))

/-- `Path.with_name`: replace the final component, keeping the directory. -/
def withName (p : FPath) (n : String) : FPath :=
  ⟨p.dirs, n⟩

/-- `Path.with_suffix`: replace the suffix of the final component
(CPython computes `name[:len(name) - len(old_suffix)] + suffix`). -/
def withSuffix (p : FPath) (suf : String) : FPath :=
  ⟨p.dirs, nameStem p.name ++ suf⟩

/-! ## utils.generate_identifier -/

/-- `nene.utils.generate_identifier`: `"/".join(parts[:-1] + [path.stem])`. -/
def generate_identifier (p : FPath) : String :=
  String.intercalate "/" (p.dirs ++ [nameStem p.name])

/-! ## Destination path resolution (`nene._api.build`, step 4) -/

/-- The local `pretty_links` predicate inside `build`:
`activated and not source.endswith("index.md") and source != "404.md"`.
The `activated` flag (`"pretty_links" in config and config["pretty_links"]`)
is abstracted as the boolean `enabled`. -/
def pretty_links_pred (source : String) (enabled : Bool) : Bool :=
  enabled && (!(pyEndsWith source "index.md") && !(source == "404.md"))

/-- The destination-path computation of `build`:
`save_as` present -> `Path(source).with_name(save_as)`;
else pretty links applicable -> `Path(id) / "index.html"`;
else `Path(source).with_suffix(".html")`. -/
def page_destination (save_as : Option String) (enabled : Bool) (source : FPath)
    (pageId : String) : String :=
  match save_as with
  | some nm => fpathStr (withName source nm)
  | none =>
    if pretty_links_pred (fpathStr source) enabled then pageId ++ "/index.html"
    else fpathStr (withSuffix source ".html")

/-- Destination resolution as `build` invokes it: the page id is the one the
loaders derived from the source path via `generate_identifier`. -/
def build_destination (save_as : Option String) (enabled : Bool) (source : FPath) : String :=
  page_destination save_as enabled source (generate_identifier source)

/-- Modelled from the spec wording of destination path resolution, for the
refinement comparison of claim C1: "if the page metadata has a save_as field
the destination is the source's directory joined with that literal filename;
otherwise, if pretty_links is enabled in config and the source is neither a
directory index page nor the not-found page, the destination is
id/index.html; otherwise the destination is the source path with its
extension replaced by .html". -/
def destination_spec (save_as : Option String) (enabled : Bool) (source : FPath) : String :=
  match save_as with
  | some nm => fpathStr ⟨source.dirs, nm⟩
  | none =>
    if enabled && !(pyEndsWith (fpathStr source) "index.md")
        && !(fpathStr source == "404.md") then
      generate_identifier source ++ "/index.html"
    else fpathStr ⟨source.dirs, nameStem source.name ++ ".html"⟩

/-! ## Python dicts as insertion-ordered association lists -/

variable {V : Type}

/-- The keys of a dict, in insertion order. -/
def keysOf (d : List (String × V)) : List String := d.map Prod.fst

/-- Python `k in d`. -/
def hasKey (d : List (String × V)) (k : String) : Bool :=
  d.any (fun kv => kv.1 == k)

/-- Python `d.get(k)` / `d[k]`: value of the first entry with key `k`. -/
def getKey : List (String × V) → String → Option V
  | [], _ => none
  | kv :: rest, k => if kv.1 = k then some kv.2 else getKey rest k

/-- Python `d[k] = v`: replace in place if the key exists (keeping its
position, as insertion-ordered dicts do), else append a new entry. -/
def setKey (d : List (String × V)) (k : String) (v : V) : List (String × V) :=
  if hasKey d k then d.map (fun kv => if kv.1 = k then (k, v) else kv)
  else d ++ [(k, v)]

/-- Python `d.update(e)`: assign every entry of `e` into `d` in order. -/
def dictUpdate (d e : List (String × V)) : List (String × V) :=
  e.foldl (fun acc kv => setKey acc kv.1 kv.2) d

/-! ## Data propagation merge (`nene._api.build`, step 3)

The merge statement executed for index data records and id-matching data
records is `page.update({**data["content"], **page})`: the dict literal is
`content` updated by `page`, and the page is then updated with the result. -/

/-- `page.update({**content, **page})`. -/
def propagate_merge (page content : List (String × V)) : List (String × V) :=
  dictUpdate page (dictUpdate content page)

/-! ## Page loading (`nene._api.build`, step 1) -/

/-- The fixed fields of a page record that the collision claims need; `title`
stands for the user-visible payload distinguishing two sources. -/
structure Page where
  id : String
  parent : String
  title : String
deriving DecidableEq, Repr

/-- The markdown/notebook loading loop of `build`: `site[page["id"]] = page`
for each loaded page in order, starting from an empty site dict. -/
def load_pages (sources : List Page) : List (String × Page) :=
  sources.foldl (fun site p => setKey site p.id p) []

/-! ## Sibling linking (`nene._api.build`, step 5)

The code sorts `site.items()` by parent, groups them with
`itertools.groupby`, and for each page id in a group assigns
`site[page_id]["siblings"] = [site[i] for i in (siblings - {page_id})]`.
Grouping the sorted items by parent yields, for every page, exactly the set
of keys sharing its parent, so the group for a page is embedded as the
filter of the site by the page's parent.  Python's set iteration order is
unspecified, so the embedding fixes site order; pages are referenced by id
(the spec's sanctioned index-based representation of the live references). -/

/-- The sibling ids assigned to the page with key `k` and parent `par`:
the keys of its parent's group minus its own key. -/
def siblings_of (site : List (String × Page)) (k : String) (par : String) : List String :=
  ((site.filter (fun o => o.2.parent == par)).map Prod.fst).filter (fun j => !(j == k))

/-- A page after sibling linking. -/
structure SPage where
  page : Page
  siblings : List String
deriving DecidableEq, Repr

/-- Sibling linking over the whole site. -/
def add_siblings (site : List (String × Page)) : List (String × SPage) :=
  site.map (fun kv => (kv.1, SPage.mk kv.2 (siblings_of site kv.1 kv.2.parent)))

/-- Concrete site used to witness the sibling-linking claim: three pages
sharing parent "blog" and one page alone under the root. -/
def exSiteC5 : List (String × Page) :=
  [("blog/a", Page.mk "blog/a" "blog" "A"),
   ("blog/b", Page.mk "blog/b" "blog" "B"),
   ("blog/c", Page.mk "blog/c" "blog" "C"),
   ("about", Page.mk "about" "." "D")]

/-! ## Python `str.split` (`text.split(sep, maxsplit)`) -/

/-- The greedy left-to-right splitter behind Python `str.split(sep, maxsplit)`
on character lists, with enough fuel (the text length) to finish: each step
either consumes the separator where it is a prefix (emitting the accumulated
part) or moves one character into the accumulator; `maxs = some 0` stops
splitting and keeps the remainder whole. -/
def pySplitFuel (s0 : Char) (srest : List Char) :
    Nat → Option Nat → List Char → List Char → List (List Char)
  | 0, _, cs, acc => [acc ++ cs]
  | _ + 1, _, [], acc => [acc]
  | fuel + 1, maxs, c :: rest, acc =>
    if maxs = some 0 then [acc ++ c :: rest]
    else if List.isPrefixOf (s0 :: srest) (c :: rest) then
      acc :: pySplitFuel s0 srest fuel (maxs.map (fun m => m - 1)) (List.drop srest.length rest) []
    else pySplitFuel s0 srest fuel maxs rest (acc ++ [c])

/-- The number of non-overlapping, leftmost-first separator occurrences that
`str.split` consumes. -/
def countOccFuel (s0 : Char) (srest : List Char) : Nat → List Char → Nat
  | 0, _ => 0
  | _ + 1, [] => 0
  | fuel + 1, c :: rest =>
    if List.isPrefixOf (s0 :: srest) (c :: rest) then
      countOccFuel s0 srest fuel (List.drop srest.length rest) + 1
    else countOccFuel s0 srest fuel rest

/-- Python `text.split(sep, maxsplit)` on character lists (`maxs = none`
means no limit; Python rejects an empty separator, left as a single part). -/
def pySplitL (sep : List Char) (maxs : Option Nat) (cs : List Char) : List (List Char) :=
  match sep with
  | [] => [cs]
  | s0 :: srest => pySplitFuel s0 srest cs.length maxs cs []

/-- `text.split(sep, maxsplit)` on strings. -/
def pySplitStr (sep : String) (maxs : Option Nat) (s : String) : List String :=
  (pySplitL sep.data maxs s.data).map String.mk

/-- Number of separator occurrences in `s` (as `str.split` counts them). -/
def countOccStr (sep : String) (s : String) : Nat :=
  match sep.data with
  | [] => 0
  | s0 :: srest => countOccFuel s0 srest s.data.length s.data

/-! ## Markdown loader (`nene.parsing.load_markdown`) -/

/-- The default page fields (`id`, `type`, `parent`, `source`) built before
the front matter is merged; field values are strings here. -/
def md_defaults (path : FPath) : List (String × String) :=
  [("id", generate_identifier path), ("type", "markdown"),
   ("parent", parentStr path), ("source", fpathStr path)]

/-- `load_markdown`: strip the file text, split it on `"---"` with
maxsplit 2, discard the leading part, merge the parsed front matter over the
default fields (`page.update(yaml.safe_load(front_matter.strip()))`), and
store the remainder under `"markdown"`.  A split with fewer than three parts
makes the 3-way unpacking raise, modelled as an error.  The YAML parser is
the delegated external engine `py`. -/
def load_markdown (py : String → List (String × String)) (path : FPath) (text : String) :
    Except Unit (List (String × String)) :=
  match pySplitStr "---" (some 2) (pyStrip text) with
  | [_, front, md] =>
    Except.ok (setKey (dictUpdate (md_defaults path) (py (pyStrip front))) "markdown" md)
  | _ => Except.error ()

/-- Concrete front-matter parser standing in for the YAML engine in the
markdown-loader witness. -/
def exYamlC6 : String → List (String × String) := fun _ => [("title", "T")]

/-! ## The crawler (`nene.crawling`)

The source tree is modelled as a list of named entries (`FSTree`); glob
expansion of the ignore patterns touches the filesystem and is delegated:
`crawl` receives the already-expanded ignore list (the code tests
`str(path) in expanded_ignore`, i.e. plain membership). -/

/-- A source tree entry: a plain file or a directory with children. -/
inductive FSTree where
  | file (name : String)
  | dir (name : String) (children : List FSTree)

/-- `_walk_non_hidden`'s skip test: the entry name starts with `"."` or
`"_"` (the `hidden_start` markers). -/
def isHidden (name : String) : Bool :=
  pyStartsWith name "." || pyStartsWith name "_"

/-- `_walk_non_hidden`: depth-first enumeration of the files under the
entries, skipping any entry (file or directory) whose name starts with a
hidden marker; `pre` is the directory prefix accumulated from the root. -/
def walkList : List String → List FSTree → List FPath
  | _, [] => []
  | pre, FSTree.file name :: rest =>
    (if isHidden name then [] else [⟨pre, name⟩]) ++ walkList pre rest
  | pre, FSTree.dir name cs :: rest =>
    (if isHidden name then [] else walkList (pre ++ [name]) cs) ++ walkList pre rest

/-- The bucket categories of `crawl`'s `formats` table. -/
inductive Cat where
  | markdown | json | yaml | ipynb | bibtex
deriving DecidableEq, Repr

/-- The `formats` dictionary: known extensions to their bucket. -/
def formatOf (suffix : String) : Option Cat :=
  if suffix == ".md" then some Cat.markdown
  else if suffix == ".json" then some Cat.json
  else if suffix == ".yml" then some Cat.yaml
  else if suffix == ".yaml" then some Cat.yaml
  else if suffix == ".ipynb" then some Cat.ipynb
  else if suffix == ".bib" then some Cat.bibtex
  else none

/-- The `tree` dictionary returned by `crawl`. -/
structure Manifest where
  copy : List FPath
  markdown : List FPath
  ipynb : List FPath
  json : List FPath
  yaml : List FPath
  bibtex : List FPath
deriving DecidableEq, Repr

/-- The walked files that survive the ignore test (`str(path) in
expanded_ignore` drops the file). -/
def crawl_files (root : List FSTree) (ignore : List String) : List FPath :=
  (walkList [] root).filter (fun p => !(ignore.contains (fpathStr p)))

/-- `crawl(root, ignore, copy_extra)`: the copy bucket starts as the
`copy_extra` paths; every surviving walked file is appended to the bucket
of its suffix, or to `copy` when the suffix is unknown.  The single-pass
loop appends each file to exactly one bucket, so each bucket is the
suffix-filtered sublist of the surviving files in walk order. -/
def crawl (root : List FSTree) (ignore : List String) (copyExtra : List FPath) : Manifest :=
  { copy := copyExtra
      ++ (crawl_files root ignore).filter (fun p => formatOf (nameSuffix p.name) == none)
  , markdown := (crawl_files root ignore).filter
      (fun p => formatOf (nameSuffix p.name) == some Cat.markdown)
  , ipynb := (crawl_files root ignore).filter
      (fun p => formatOf (nameSuffix p.name) == some Cat.ipynb)
  , json := (crawl_files root ignore).filter
      (fun p => formatOf (nameSuffix p.name) == some Cat.json)
  , yaml := (crawl_files root ignore).filter
      (fun p => formatOf (nameSuffix p.name) == some Cat.yaml)
  , bibtex := (crawl_files root ignore).filter
      (fun p => formatOf (nameSuffix p.name) == some Cat.bibtex) }

/-- Does any path component begin with a hidden/reserved marker? -/
def hasHiddenComponent (p : FPath) : Bool :=
  (p.dirs ++ [p.name]).any isHidden

/-- In how many manifest categories does the path appear? -/
def numCategoriesWith (m : Manifest) (p : FPath) : Nat :=
  (m.copy.contains p).toNat + (m.markdown.contains p).toNat
  + (m.ipynb.contains p).toNat + (m.json.contains p).toNat
  + (m.yaml.contains p).toNat + (m.bibtex.contains p).toNat

/-! ## Dev-server port binding (`nene._api.serve`) -/

/-- Outcome of the `serve` retry loop: the server bound a port and serves,
the `OSError` was re-raised, or the loop ran out of attempts and `serve`
returned silently. -/
inductive ServeResult where
  | served (port : Nat)
  | raised
  | returned
deriving DecidableEq, Repr

/-- Whether the loop re-raised the bind failure. -/
def ServeResult.isRaised : ServeResult → Bool
  | ServeResult.raised => true
  | _ => false

/-- The body of `for attempt in range(max_attempts)` in `serve`; `remaining`
counts the loop iterations still to run (initially `max_attempts`).  A
successful bind serves and breaks out; on a bind failure (`OSError`) the
code re-raises only when `attempt == max_attempts + 1` — the guard exactly
as written in the source — and otherwise increments the port and continues. -/
def serve_go (bindOk : Nat → Bool) (max_attempts : Nat) :
    Nat → Nat → Nat → ServeResult
  | 0, _, _ => ServeResult.returned
  | remaining + 1, attempt, port =>
    if bindOk port then ServeResult.served port
    else if attempt = max_attempts + 1 then ServeResult.raised
    else serve_go bindOk max_attempts remaining (attempt + 1) (port + 1)

/-- `serve(config, source_files, port)`: a `none` port means the default
5500 with at most 10 attempts; an explicit port is tried exactly once. -/
def serve (bindOk : Nat → Bool) (port : Option Nat) : ServeResult :=
  match port with
  | none => serve_go bindOk 10 10 0 5500
  | some p => serve_go bindOk 1 1 0 p

/-! ## Render pipeline pass 1 (`nene._api.render`) -/

/-- The fields of a page relevant to the body-expansion pass: its loader
type ("markdown" or "ipynb") and its markdown body. -/
structure RPage where
  ptype : String
  markdown : String
deriving DecidableEq, Repr

/-- The first render pass of `render`: `for page in site.values():
page["markdown"] = render_markdown(page, ...)` — applied to every page with
no test on the page type.  The Jinja evaluation of the body against the
{page, config, site, build} context is the delegated engine `expand`. -/
def render_markdown_pass (expand : String → String)
    (site : List (String × RPage)) : List (String × RPage) :=
  site.map (fun kv => (kv.1, RPage.mk kv.2.ptype (expand kv.2.markdown)))

/-! ## Notebook loader (`nene.parsing.load_jupyter_notebook`)

Cells are converted to Markdown pieces; code-cell outputs feed an output
state of pre-formatted text pieces, at most one display artifact, and
extracted images.  The HTML display formatting (the `text_html_template`
wrapper with its `<style>` dedenting) and the base64 byte decoding are
delegated engines, passed as the parameters `fmtHtml` and `b64dec`. -/

/-- One notebook output: its `output_type` plus the fields the loader reads
(`text` for streams, `ename`/`evalue`/`traceback` for errors, and the
ordered `data` mime mapping for display outputs). -/
structure NBOutput where
  output_type : String
  text : String
  ename : String
  evalue : String
  traceback : List String
  data : List (String × String)
deriving DecidableEq, Repr

/-- One notebook cell: its type, source, metadata tags and outputs. -/
structure NBCell where
  cell_type : String
  source : String
  tags : List String
  outputs : List NBOutput
deriving DecidableEq, Repr

/-- The loop state over a code cell's outputs: `output_pre` pieces, the
`output_display` artifact, and the images collected so far. -/
structure OutState where
  pre : List String
  disp : Option String
  imgs : List (String × String)
deriving DecidableEq, Repr

/-- The image scan `for mime_type in output["data"]`: each mime type is
unpacked by `mime_type.split("/")` (a non-2-way split raises, modelled as an
error); the first mime whose main type is `"image"` wins and the loop
breaks. -/
def findFirstImage : List (String × String) → Except Unit (Option (String × String))
  | [] => Except.ok none
  | (mime, payload) :: rest =>
    match pySplitStr "/" none mime with
    | [mainT, subT] =>
      if mainT == "image" then Except.ok (some (subT, payload))
      else findFirstImage rest
    | _ => Except.error ()

/-- `output["data"][mime_type].split("base64,")[-1]`; the base64 byte
decoding itself is the delegated `b64dec` engine. -/
def base64Payload (s : String) : String :=
  String.mk ((pySplitL ("base64,".data) none s.data).getLastD [])

/-- `str(Path(image_dir) / "cell{cell_index}_image.{extension}")`. -/
def imagePathOf (image_dir : String) (cellIndex : Nat) (ext : String) : String :=
  image_dir ++ "/cell" ++ toString cellIndex ++ "_image." ++ ext

/-- The Markdown image reference emitted for an extracted image. -/
def imgRef (ipath : String) : String :=
  "![Output of the code shown above.](" ++ ipath ++ ")"

/-- Processing of one output of a code cell: streams and errors extend
`output_pre`; display outputs set the display to formatted HTML when a
`text/html` payload exists (overwriting any previous display), else append a
`text/plain` payload to `output_pre`; afterwards, when no display artifact
exists yet, the output's mime types are scanned for the first image, which
is stored in the images mapping and referenced from the display. -/
def processOutput (fmtHtml b64dec : String → String) (image_dir : String)
    (cellIndex : Nat) (st : OutState) (o : NBOutput) : Except Unit OutState :=
  if o.output_type = "stream" then
    Except.ok ⟨st.pre ++ [o.text], st.disp, st.imgs⟩
  else if o.output_type = "error" then
    Except.ok ⟨st.pre ++ [o.ename ++ ": " ++ o.evalue,
      "Traceback:\n" ++ String.intercalate "\n" o.traceback], st.disp, st.imgs⟩
  else if o.output_type = "display_data" ∨ o.output_type = "execute_result" then
    if hasKey o.data "text/html" then
      Except.ok ⟨st.pre, some (fmtHtml ((getKey o.data "text/html").getD "")), st.imgs⟩
    else if hasKey o.data "text/plain" then
      match st.disp with
      | some d =>
        Except.ok ⟨st.pre ++ [(getKey o.data "text/plain").getD ""], some d, st.imgs⟩
      | none =>
        match findFirstImage o.data with
        | Except.error e => Except.error e
        | Except.ok none =>
          Except.ok ⟨st.pre ++ [(getKey o.data "text/plain").getD ""], none, st.imgs⟩
        | Except.ok (some (sub, payload)) =>
          Except.ok ⟨st.pre ++ [(getKey o.data "text/plain").getD ""],
            some (imgRef (imagePathOf image_dir cellIndex sub)),
            setKey st.imgs (imagePathOf image_dir cellIndex sub)
              (b64dec (base64Payload payload))⟩
    else
      match st.disp with
      | some d => Except.ok ⟨st.pre, some d, st.imgs⟩
      | none =>
        match findFirstImage o.data with
        | Except.error e => Except.error e
        | Except.ok none => Except.ok st
        | Except.ok (some (sub, payload)) =>
          Except.ok ⟨st.pre, some (imgRef (imagePathOf image_dir cellIndex sub)),
            setKey st.imgs (imagePathOf image_dir cellIndex sub)
              (b64dec (base64Payload payload))⟩
  else Except.ok st

/-- The loop over a code cell's outputs. -/
def processOutputs (fmtHtml b64dec : String → String) (image_dir : String)
    (cellIndex : Nat) : List NBOutput → OutState → Except Unit OutState
  | [], st => Except.ok st
  | o :: rest, st =>
    match processOutput fmtHtml b64dec image_dir cellIndex st o with
    | Except.error e => Except.error e
    | Except.ok st2 => processOutputs fmtHtml b64dec image_dir cellIndex rest st2

/-- The per-cell conversion: empty or skip-tagged cells contribute nothing;
markdown/raw cells pass their source through; code cells contribute the
fenced source, a fenced block of the joined `output_pre` pieces when any
exist, and the display artifact when one exists, together with the images
their outputs produced. -/
def processCell (fmtHtml b64dec : String → String) (image_dir language : String)
    (cellIndex : Nat) (cell : NBCell) :
    Except Unit (List String × List (String × String)) :=
  if (pyStrip cell.source).data.length = 0 then Except.ok ([], [])
  else if cell.tags.contains "skip" then Except.ok ([], [])
  else if cell.cell_type = "markdown" ∨ cell.cell_type = "raw" then
    Except.ok ([cell.source], [])
  else if cell.cell_type = "code" then
    match processOutputs fmtHtml b64dec image_dir cellIndex cell.outputs ⟨[], none, []⟩ with
    | Except.error e => Except.error e
    | Except.ok st =>
      Except.ok ((["```" ++ language ++ "\n" ++ cell.source ++ "\n```"]
        ++ (if st.pre.isEmpty then []
            else ["```\n" ++ String.intercalate "\n" st.pre ++ "\n```"])
        ++ (match st.disp with | some d => [d] | none => [])), st.imgs)
  else Except.ok ([], [])

/-- The enumerated loop over the notebook's cells, concatenating the
Markdown pieces and accumulating the images mapping. -/
def processCells (fmtHtml b64dec : String → String) (image_dir language : String) :
    Nat → List NBCell → Except Unit (List String × List (String × String))
  | _, [] => Except.ok ([], [])
  | i, cell :: rest =>
    match processCell fmtHtml b64dec image_dir language i cell with
    | Except.error e => Except.error e
    | Except.ok (pieces, imgs) =>
      match processCells fmtHtml b64dec image_dir language (i + 1) rest with
      | Except.error e => Except.error e
      | Except.ok (pieces2, imgs2) => Except.ok (pieces ++ pieces2, dictUpdate imgs imgs2)

/-- `load_jupyter_notebook`'s content conversion: image directory
`str(path.stem) + "_images"`, language `"python"`, Markdown
`"\n\n".join(markdown)` and the images mapping.  (The page envelope around
it carries the same default fields as the markdown loader.) -/
def load_jupyter_notebook (fmtHtml b64dec : String → String) (path : FPath)
    (cells : List NBCell) : Except Unit (String × List (String × String)) :=
  match processCells fmtHtml b64dec (nameStem path.name ++ "_images") "python" 0 cells with
  | Except.error e => Except.error e
  | Except.ok (pieces, imgs) => Except.ok (String.intercalate "\n\n" pieces, imgs)

/-- Is the output a display output (`display_data` / `execute_result`)? -/
def isDisplayType (o : NBOutput) : Bool :=
  o.output_type == "display_data" || o.output_type == "execute_result"

/-- Total first-image selector over a data mapping (mirrors the scan,
skipping malformed mimes instead of failing); used to state which image the
loader must pick. -/
def firstImageInData : List (String × String) → Option (String × String)
  | [] => none
  | (mime, payload) :: rest =>
    match pySplitStr "/" none mime with
    | [mainT, subT] =>
      if mainT == "image" then some (subT, payload) else firstImageInData rest
    | _ => firstImageInData rest

/-- The first display output carrying an image, and its first image mime. -/
def firstDisplayImage : List NBOutput → Option (String × String)
  | [] => none
  | o :: rest =>
    if isDisplayType o then
      match firstImageInData o.data with
      | some r => some r
      | none => firstDisplayImage rest
    else firstDisplayImage rest

/-- Every mime type of the output splits into exactly two parts on "/". -/
def wellFormedMimes (o : NBOutput) : Bool :=
  o.data.all (fun kv => (pySplitStr "/" none kv.1).length == 2)

/-- Sample notebook cell used by the C8 witness: one code cell with a
single image display output and no HTML or plain-text payload. -/
def exCellC8 : NBCell :=
  ⟨"code", "plot()", [],
   [⟨"execute_result", "", "", "", [], [("image/png", "base64,AAA")]⟩]⟩

/-- Identity stand-in for the delegated HTML formatter in the witness. -/
def exFmC8 : String → String := fun s => s

/-- Identity stand-in for the delegated base64 decoder in the witness. -/
def exBdC8 : String → String := fun s => s

end Nene

open Nene

/-! ## Dict lemmas -/

namespace Nene

variable {V : Type}

theorem hasKey_cons_resolve (kv : String × V) (t : List (String × V)) (k : String)
    (hne : ¬ kv.1 = k) : hasKey (kv :: t) k = hasKey t k := by
  simp [hasKey, hne]

theorem hasKey_tail_false (kv : String × V) (t : List (String × V)) (k : String)
    (h : hasKey (kv :: t) k = false) : hasKey t k = false := by
  cases hx : hasKey t k
  · rfl
  · exfalso
    have : hasKey (kv :: t) k = true := by
      simp only [hasKey, List.any_cons, Bool.or_eq_true]
      right
      exact hx
    rw [h] at this
    cases this

theorem hasKey_head_false (kv : String × V) (t : List (String × V)) (k : String)
    (h : hasKey (kv :: t) k = false) : ¬ kv.1 = k := by
  intro hh
  have : hasKey (kv :: t) k = true := by
    simp [hasKey, hh]
  rw [h] at this
  cases this

theorem getKey_map_replace (k : String) (v : V) (k' : String) (d : List (String × V))
    (h : k' ≠ k) :
    getKey (d.map (fun kv => if kv.1 = k then (k, v) else kv)) k' = getKey d k' := by
  induction d with
  | nil => rfl
  | cons kv t ih =>
    simp only [List.map_cons, getKey]
    by_cases hak : kv.1 = k
    · rw [if_pos hak]
      have h1 : ¬ (k = k') := fun hh => h hh.symm
      have h2 : ¬ (kv.1 = k') := fun hh => h (hh.symm.trans hak)
      simp [h1, h2, ih]
    · rw [if_neg hak]
      simp [ih]

theorem getKey_map_replace_self (k : String) (v : V) (d : List (String × V))
    (h : hasKey d k = true) :
    getKey (d.map (fun kv => if kv.1 = k then (k, v) else kv)) k = some v := by
  induction d with
  | nil => simp [hasKey] at h
  | cons kv t ih =>
    simp only [List.map_cons, getKey]
    by_cases hak : kv.1 = k
    · rw [if_pos hak]
      simp
    · rw [if_neg hak]
      have ht : hasKey t k = true := by
        simpa [hasKey, hak] using h
      simp [hak, ih ht]

theorem getKey_append_single (k : String) (v : V) (k' : String) (d : List (String × V))
    (h : hasKey d k = false) :
    getKey (d ++ [(k, v)]) k' = if k' = k then some v else getKey d k' := by
  induction d with
  | nil =>
    by_cases hk : k' = k
    · simp [getKey, hk]
    · have hk2 : ¬ k = k' := fun hh => hk hh.symm
      simp [getKey, hk, hk2]
  | cons kv t ih =>
    have hkv := hasKey_head_false kv t k h
    have ht := hasKey_tail_false kv t k h
    simp only [List.cons_append, getKey]
    by_cases hak : kv.1 = k'
    · have hk : ¬ k' = k := fun hh => hkv (hak.trans hh)
      simp [hak, hk]
    · simp [hak, ih ht]

theorem getKey_setKey (d : List (String × V)) (k : String) (v : V) (k' : String) :
    getKey (setKey d k v) k' = if k' = k then some v else getKey d k' := by
  unfold setKey
  by_cases h : hasKey d k
  · rw [if_pos h]
    by_cases hk : k' = k
    · rw [if_pos hk, hk, getKey_map_replace_self k v d h]
    · rw [if_neg hk, getKey_map_replace k v k' d hk]
  · rw [if_neg h]
    exact getKey_append_single k v k' d (by simpa using h)

theorem hasKey_iff_mem (d : List (String × V)) (k : String) :
    hasKey d k = true ↔ k ∈ keysOf d := by
  simp only [hasKey, keysOf, List.any_eq_true, List.mem_map, beq_iff_eq]

theorem getKey_eq_none (d : List (String × V)) (k : String)
    (h : hasKey d k = false) : getKey d k = none := by
  induction d with
  | nil => rfl
  | cons kv t ih =>
    have hkv := hasKey_head_false kv t k h
    have ht := hasKey_tail_false kv t k h
    simp [getKey, hkv, ih ht]

theorem keysOf_map_replace (k : String) (v : V) (d : List (String × V)) :
    keysOf (d.map (fun kv => if kv.1 = k then (k, v) else kv)) = keysOf d := by
  induction d with
  | nil => rfl
  | cons kv t ih =>
    simp only [keysOf, List.map_cons] at *
    by_cases hak : kv.1 = k
    · rw [if_pos hak]
      simp [ih, hak]
    · rw [if_neg hak]
      simp [ih]

theorem keysOf_setKey (d : List (String × V)) (k : String) (v : V) :
    keysOf (setKey d k v) = if hasKey d k then keysOf d else keysOf d ++ [k] := by
  unfold setKey
  by_cases h : hasKey d k
  · rw [if_pos h, if_pos h, keysOf_map_replace]
  · rw [if_neg h, if_neg h]
    simp [keysOf]

theorem nodup_keys_setKey (d : List (String × V)) (k : String) (v : V)
    (h : (keysOf d).Nodup) : (keysOf (setKey d k v)).Nodup := by
  rw [keysOf_setKey]
  by_cases hk : hasKey d k
  · rwa [if_pos hk]
  · rw [if_neg hk]
    have : k ∉ keysOf d := fun hm => hk ((hasKey_iff_mem d k).mpr hm)
    simp [List.nodup_append, h, this]

theorem nodup_keys_dictUpdate (d e : List (String × V))
    (h : (keysOf d).Nodup) : (keysOf (dictUpdate d e)).Nodup := by
  induction e generalizing d with
  | nil => exact h
  | cons hd t ih => exact ih (setKey d hd.1 hd.2) (nodup_keys_setKey d hd.1 hd.2 h)

theorem getKey_isSome (d : List (String × V)) (k : String) :
    (getKey d k).isSome = hasKey d k := by
  induction d with
  | nil => rfl
  | cons kv t ih =>
    by_cases hak : kv.1 = k
    · simp [getKey, hasKey, hak]
    · simp [getKey, hasKey, hak, ih]

theorem getKey_dictUpdate (d e : List (String × V)) (k : String)
    (he : (keysOf e).Nodup) :
    getKey (dictUpdate d e) k = if hasKey e k then getKey e k else getKey d k := by
  induction e generalizing d with
  | nil => simp [dictUpdate, hasKey, getKey]
  | cons kv t ih =>
    have hkeys : keysOf (kv :: t) = kv.1 :: keysOf t := rfl
    rw [hkeys, List.nodup_cons] at he
    have hstep : dictUpdate d (kv :: t) = dictUpdate (setKey d kv.1 kv.2) t := rfl
    rw [hstep, ih _ he.2]
    have hat : hasKey t kv.1 = false := by
      cases hta : hasKey t kv.1
      · rfl
      · exact absurd ((hasKey_iff_mem t kv.1).mp hta) he.1
    by_cases hk : k = kv.1
    · subst hk
      rw [hat]
      have hhead : hasKey (kv :: t) kv.1 = true := by simp [hasKey]
      rw [hhead]
      simp [getKey_setKey, getKey]
    · rw [getKey_setKey, if_neg hk]
      have hne : ¬ kv.1 = k := fun hh => hk hh.symm
      have hcond : hasKey (kv :: t) k = hasKey t k :=
        hasKey_cons_resolve kv t k hne
      rw [hcond]
      by_cases ht : hasKey t k
      · rw [if_pos ht, if_pos ht]
        simp [getKey, hne]
      · rw [if_neg ht, if_neg ht]

end Nene

/-- C1: destination path resolution is a pure function of
(save_as, pretty_links_enabled, source_path, is_index, is_not_found): with an
explicit save_as the destination is the source directory joined with that
literal filename; otherwise with pretty links enabled and the source neither
an index page nor the 404 page it is id/index.html; otherwise it is the
source with extension replaced by .html.  In particular "blog/post.md"
without save_as maps to "blog/post.html" (pretty links off) and
"blog/post/index.html" (pretty links on), while "blog/index.md" keeps
"blog/index.html" even with pretty links on. -/
theorem C1_destination_resolution :
    (∀ (sa : Option String) (en : Bool) (src : FPath),
      build_destination sa en src = destination_spec sa en src)
    ∧ build_destination none false ⟨["blog"], "post.md"⟩ = "blog/post.html"
    ∧ build_destination none true ⟨["blog"], "post.md"⟩ = "blog/post/index.html"
    ∧ build_destination none true ⟨["blog"], "index.md"⟩ = "blog/index.html"
    ∧ (∀ (en : Bool) (src : FPath) (nm : String),
      build_destination (some nm) en src = fpathStr ⟨src.dirs, nm⟩) := by
  refine ⟨?_, by decide, by decide, by decide, ?_⟩
  · intro sa en src
    cases sa with
    | some nm => rfl
    | none =>
      unfold build_destination page_destination destination_spec pretty_links_pred
      simp only [Bool.and_assoc]
      rfl
  · intro en src nm
    rfl

/-- C10: generate_identifier is not injective over source paths: any two
paths with the same directory components and the same stem but different
suffixes are distinct paths that receive the same identifier string. -/
theorem C10_identifier_not_injective :
    ∀ (dirs : List String) (n1 n2 : String),
      nameStem n1 = nameStem n2 → nameSuffix n1 ≠ nameSuffix n2 →
      FPath.mk dirs n1 ≠ FPath.mk dirs n2
        ∧ generate_identifier ⟨dirs, n1⟩ = generate_identifier ⟨dirs, n2⟩ := by
  intro dirs n1 n2 hstem hsuf
  constructor
  · intro h
    exact hsuf (by injection h with _ h2; rw [h2])
  · unfold generate_identifier
    rw [hstem]

/-- C10 witness: "blog/post.md" and "blog/post.ipynb" are distinct paths with
equal stems and different suffixes, and they receive the same identifier
"blog/post". -/
theorem C10_witness :
    nameStem "post.md" = nameStem "post.ipynb"
    ∧ nameSuffix "post.md" ≠ nameSuffix "post.ipynb"
    ∧ FPath.mk ["blog"] "post.md" ≠ FPath.mk ["blog"] "post.ipynb"
    ∧ generate_identifier ⟨["blog"], "post.md"⟩ = generate_identifier ⟨["blog"], "post.ipynb"⟩ := by
  refine ⟨by decide, by decide, ?_⟩
  have h := C10_identifier_not_injective ["blog"] "post.md" "post.ipynb" (by decide) (by decide)
  exact ⟨h.1, h.2⟩

/-- C2: data propagation precedence.  For any page dict and data-record
content dict (as merged by `page.update({**data["content"], **page})` for
index records and id-matching records), keys already present on the page
keep their page value and keys absent from the page receive the data
record's value. -/
theorem C2_data_propagation_precedence :
    ∀ {V : Type} (page content : List (String × V)) (k : String),
      (keysOf page).Nodup → (keysOf content).Nodup →
      getKey (propagate_merge page content) k
        = if hasKey page k then getKey page k else getKey content k := by
  intro V page content k hp hc
  unfold propagate_merge
  rw [getKey_dictUpdate _ _ _ (nodup_keys_dictUpdate content page hc)]
  by_cases hpk : hasKey page k
  · have hMget : getKey (dictUpdate content page) k = getKey page k := by
      rw [getKey_dictUpdate _ _ _ hp, if_pos hpk]
    have hM : hasKey (dictUpdate content page) k = true := by
      rw [← getKey_isSome, hMget, getKey_isSome]
      exact hpk
    rw [if_pos hM, hMget, if_pos hpk]
  · by_cases hck : hasKey content k
    · have hMget : getKey (dictUpdate content page) k = getKey content k := by
        rw [getKey_dictUpdate _ _ _ hp, if_neg hpk]
      have hM : hasKey (dictUpdate content page) k = true := by
        rw [← getKey_isSome, hMget, getKey_isSome]
        exact hck
      rw [if_pos hM, hMget, if_neg hpk]
    · have h1 : getKey page k = none := getKey_eq_none page k (by simpa using hpk)
      have h2 : getKey content k = none := getKey_eq_none content k (by simpa using hck)
      have hMget : getKey (dictUpdate content page) k = none := by
        rw [getKey_dictUpdate _ _ _ hp, if_neg hpk, h2]
      have hM : hasKey (dictUpdate content page) k = false := by
        rw [← getKey_isSome, hMget]
        rfl
      rw [if_neg (by simp [hM]), h1, if_neg hpk, h2]

/-- C2 witness: page {title: "Explicit"} merged with data content
{title: "FromData", date: "2024"} keeps title == "Explicit" and gains
date == "2024". -/
theorem C2_witness :
    (keysOf [("title", "Explicit")]).Nodup
    ∧ (keysOf [("title", "FromData"), ("date", "2024")]).Nodup
    ∧ getKey (propagate_merge [("title", "Explicit")]
        [("title", "FromData"), ("date", "2024")]) "title" = some "Explicit"
    ∧ getKey (propagate_merge [("title", "Explicit")]
        [("title", "FromData"), ("date", "2024")]) "date" = some "2024" := by
  refine ⟨by decide, by decide, ?_, ?_⟩
  · exact (C2_data_propagation_precedence [("title", "Explicit")]
      [("title", "FromData"), ("date", "2024")] "title" (by decide) (by decide)).trans
      (by decide)
  · exact (C2_data_propagation_precedence [("title", "Explicit")]
      [("title", "FromData"), ("date", "2024")] "date" (by decide) (by decide)).trans
      (by decide)

/-- C4 counterexample: two distinct pages with the same id, loaded in order.
The page map keeps exactly one entry (the later page), and the assembler's
output is byte-identical to loading only the later page, so no collision
count or warning list is recorded anywhere in the returned data, refuting
the claim's observability requirement. -/
theorem C4_counterexample :
    Page.mk "pg" "." "one" ≠ Page.mk "pg" "." "two"
    ∧ (Page.mk "pg" "." "one").id = (Page.mk "pg" "." "two").id
    ∧ load_pages [Page.mk "pg" "." "one", Page.mk "pg" "." "two"]
        = load_pages [Page.mk "pg" "." "two"]
    ∧ (load_pages [Page.mk "pg" "." "one", Page.mk "pg" "." "two"]).length = 1 := by
  decide

/-- C4 amended: for two sources resolving to the same page id, the page map
contains exactly one entry under that id and the later-loaded page wins; the
collision is silently ignored, the result being identical to loading only
the later source. -/
theorem C4_collision_amended :
    ∀ (p1 p2 : Page), p1.id = p2.id →
      load_pages [p1, p2] = [(p2.id, p2)]
      ∧ load_pages [p1, p2] = load_pages [p2] := by
  intro p1 p2 h
  have h1 : load_pages [p1, p2] = setKey (setKey [] p1.id p1) p2.id p2 := rfl
  have hmain : load_pages [p1, p2] = [(p2.id, p2)] := by
    rw [h1]
    have h2 : setKey ([] : List (String × Page)) p1.id p1 = [(p1.id, p1)] := rfl
    rw [h2, ← h]
    unfold setKey
    rw [if_pos (by simp [hasKey])]
    simp
  have hm2 : load_pages [p2] = [(p2.id, p2)] := rfl
  exact ⟨hmain, hmain.trans hm2.symm⟩

/-- C4 witness: the amended statement at the concrete colliding pair. -/
theorem C4_witness :
    (Page.mk "pg" "." "one").id = (Page.mk "pg" "." "two").id
    ∧ load_pages [Page.mk "pg" "." "one", Page.mk "pg" "." "two"]
        = [((Page.mk "pg" "." "two").id, Page.mk "pg" "." "two")]
    ∧ load_pages [Page.mk "pg" "." "one", Page.mk "pg" "." "two"]
        = load_pages [Page.mk "pg" "." "two"] := by
  have h := C4_collision_amended (Page.mk "pg" "." "one") (Page.mk "pg" "." "two") rfl
  exact ⟨rfl, h.1, h.2⟩

/-- Removing the one occurrence of a member from a duplicate-free list by
filtering shortens it by exactly one. -/
theorem length_filter_ne_of_nodup (L : List String) (k : String)
    (h : L.Nodup) (hk : k ∈ L) :
    (L.filter (fun j => !(j == k))).length + 1 = L.length := by
  induction L with
  | nil => cases hk
  | cons a t ih =>
    rw [List.nodup_cons] at h
    by_cases hak : a = k
    · subst hak
      have hfix : t.filter (fun j => !(j == a)) = t := by
        apply List.filter_eq_self.mpr
        intro x hx
        simp only [Bool.not_eq_eq_eq_not, Bool.not_true, beq_eq_false_iff_ne]
        intro hxa
        subst hxa
        exact absurd hx h.1
      simp [List.filter_cons, hfix]
    · rcases List.mem_cons.mp hk with h1 | h1
      · exact absurd h1.symm hak
      · have hrec := ih h.2 h1
        have hkeep : (!(a == k)) = true := by simp [hak]
        simp only [List.filter_cons, hkeep, if_pos, List.length_cons]
        omega

/-- C5: sibling linking.  For a well-formed site (keys are unique and each
page's id equals its key), every page of the assembled site receives a
siblings list consisting of exactly the ids of the other pages sharing its
parent: its own id is excluded, membership is characterised, and the list
has one element fewer than the parent's group. -/
theorem C5_sibling_linking :
    ∀ (site : List (String × Page)), (keysOf site).Nodup →
      (∀ kv ∈ site, (kv.2 : Page).id = kv.1) →
      ∀ k p, (k, p) ∈ site →
        (k, SPage.mk p (siblings_of site k p.parent)) ∈ add_siblings site
        ∧ k ∉ siblings_of site k p.parent
        ∧ (∀ j, j ∈ siblings_of site k p.parent ↔
            (j ≠ k ∧ ∃ q, (j, q) ∈ site ∧ q.parent = p.parent))
        ∧ (siblings_of site k p.parent).length + 1
            = (site.filter (fun o => o.2.parent == p.parent)).length := by
  intro site hnd _hid k p hmem
  refine ⟨?_, ?_, ?_, ?_⟩
  · exact List.mem_map_of_mem
      (fun kv => (kv.1, SPage.mk kv.2 (siblings_of site kv.1 kv.2.parent))) hmem
  · intro hcon
    have := (List.mem_filter.mp hcon).2
    simp at this
  · intro j
    constructor
    · intro hj
      obtain ⟨hj1, hj2⟩ := List.mem_filter.mp hj
      obtain ⟨o, ho, rfl⟩ := List.mem_map.mp hj1
      obtain ⟨ho1, ho2⟩ := List.mem_filter.mp ho
      exact ⟨by simpa using hj2, o.2, ho1, by simpa using ho2⟩
    · rintro ⟨hjk, q, hq, hpar⟩
      apply List.mem_filter.mpr
      refine ⟨List.mem_map.mpr ⟨(j, q), List.mem_filter.mpr ⟨hq, by simpa using hpar⟩, rfl⟩,
        by simpa using hjk⟩
  · have hLnd : ((site.filter (fun o => o.2.parent == p.parent)).map Prod.fst).Nodup :=
      List.Nodup.sublist (List.Sublist.map Prod.fst (List.filter_sublist site)) hnd
    have hkL : k ∈ (site.filter (fun o => o.2.parent == p.parent)).map Prod.fst := by
      apply List.mem_map.mpr
      exact ⟨(k, p), List.mem_filter.mpr ⟨hmem, by simp⟩, rfl⟩
    have := length_filter_ne_of_nodup
      ((site.filter (fun o => o.2.parent == p.parent)).map Prod.fst) k hLnd hkL
    calc (siblings_of site k p.parent).length + 1
        = ((site.filter (fun o => o.2.parent == p.parent)).map Prod.fst).length := this
      _ = (site.filter (fun o => o.2.parent == p.parent)).length := List.length_map _ _

/-- C5 witness: in a site with three pages under parent "blog" and one page
under the root, page "blog/a" gets exactly the two other blog pages as
siblings and the lone root page gets no siblings. -/
theorem C5_witness :
    siblings_of exSiteC5 "blog/a" "blog" = ["blog/b", "blog/c"]
    ∧ ("blog/a", SPage.mk (Page.mk "blog/a" "blog" "A") (siblings_of exSiteC5 "blog/a" "blog"))
        ∈ add_siblings exSiteC5
    ∧ "blog/a" ∉ siblings_of exSiteC5 "blog/a" "blog"
    ∧ (siblings_of exSiteC5 "blog/a" "blog").length + 1
        = (exSiteC5.filter (fun o => o.2.parent == "blog")).length
    ∧ siblings_of exSiteC5 "about" "." = [] := by
  have h := C5_sibling_linking exSiteC5 (by decide) (by decide)
    "blog/a" (Page.mk "blog/a" "blog" "A") (by decide)
  exact ⟨by decide, h.1, h.2.1, h.2.2.2, by decide⟩

/-- The length of a maxsplit-limited split is one more than the number of
separator occurrences, capped by the limit. -/
theorem pySplitFuel_length (s0 : Char) (srest : List Char) :
    ∀ (fuel m : Nat) (cs acc : List Char), cs.length ≤ fuel →
      (pySplitFuel s0 srest fuel (some m) cs acc).length
        = 1 + min (countOccFuel s0 srest fuel cs) m := by
  intro fuel
  induction fuel with
  | zero =>
    intro m cs acc hcs
    have : cs = [] := List.length_eq_zero.mp (Nat.le_zero.mp hcs)
    subst this
    simp [pySplitFuel, countOccFuel]
  | succ fuel ih =>
    intro m cs acc hcs
    cases cs with
    | nil => simp [pySplitFuel, countOccFuel]
    | cons c rest =>
      cases m with
      | zero =>
        simp [pySplitFuel, countOccFuel]
      | succ m' =>
        have hm : ¬ ((some (m' + 1) : Option Nat) = some 0) := by simp
        by_cases hpre : List.isPrefixOf (s0 :: srest) (c :: rest)
        · have hr : rest.length ≤ fuel := by
            simp only [List.length_cons] at hcs
            omega
          have hdrop : (List.drop srest.length rest).length ≤ fuel := by
            have := List.length_drop srest.length rest
            omega
          have hmapm : Option.map (fun m => m - 1) (some (m' + 1)) = some m' := by
            simp
          simp only [pySplitFuel, countOccFuel, if_neg hm, if_pos hpre, List.length_cons, hmapm]
          rw [ih m' _ [] hdrop]
          omega
        · have hr : rest.length ≤ fuel := by
            simp only [List.length_cons] at hcs
            omega
          simp only [pySplitFuel, countOccFuel, if_neg hm, if_neg hpre]
          exact ih (m' + 1) rest (acc ++ [c]) hr

/-- Specialisation to the front-matter delimiter with maxsplit 2. -/
theorem pySplitStr_dashes_length (s : String) :
    (pySplitStr "---" (some 2) s).length = 1 + min (countOccStr "---" s) 2 := by
  have h1 : pySplitStr "---" (some 2) s
      = (pySplitFuel '-' ['-', '-'] s.data.length (some 2) s.data []).map String.mk := rfl
  have h2 : countOccStr "---" s = countOccFuel '-' ['-', '-'] s.data.length s.data := rfl
  rw [h1, h2, List.length_map]
  exact pySplitFuel_length '-' ['-', '-'] s.data.length 2 s.data [] (le_refl _)

/-- C6: the markdown loader splits the stripped text on "---" into at most
three parts (leading text, front matter, body); any stripped text with fewer
than two "---" delimiters makes loading fail with an error (no page record);
and for every well-formed input the front-matter keys are merged into the
page record (overriding defaults) while the remaining text is stored as the
body (the "markdown" field). -/
theorem C6_markdown_loader :
    (∀ (py : String → List (String × String)) (path : FPath) (text : String),
      countOccStr "---" (pyStrip text) < 2 → load_markdown py path text = Except.error ())
    ∧ (∀ (s : String), (pySplitStr "---" (some 2) s).length ≤ 3)
    ∧ (∀ (py : String → List (String × String)) (path : FPath) (text lead front md : String),
      pySplitStr "---" (some 2) (pyStrip text) = [lead, front, md] →
      load_markdown py path text
        = Except.ok (setKey (dictUpdate (md_defaults path) (py (pyStrip front))) "markdown" md)
      ∧ getKey (setKey (dictUpdate (md_defaults path) (py (pyStrip front))) "markdown" md)
          "markdown" = some md
      ∧ (∀ k, k ≠ "markdown" → (keysOf (py (pyStrip front))).Nodup →
          getKey (setKey (dictUpdate (md_defaults path) (py (pyStrip front))) "markdown" md) k
            = if hasKey (py (pyStrip front)) k then getKey (py (pyStrip front)) k
              else getKey (md_defaults path) k)) := by
  refine ⟨?_, ?_, ?_⟩
  · intro py path text h
    have hlt : (pySplitStr "---" (some 2) (pyStrip text)).length < 3 := by
      rw [pySplitStr_dashes_length]
      omega
    unfold load_markdown
    generalize hgen : pySplitStr "---" (some 2) (pyStrip text) = l at hlt ⊢
    rcases l with _ | ⟨a, _ | ⟨f, _ | ⟨m, rest⟩⟩⟩
    · rfl
    · rfl
    · rfl
    · simp only [List.length_cons] at hlt
      omega
  · intro s
    rw [pySplitStr_dashes_length]
    omega
  · intro py path text lead front md hsp
    refine ⟨?_, ?_, ?_⟩
    · unfold load_markdown
      rw [hsp]
    · rw [getKey_setKey]
      simp
    · intro k hk hnd
      rw [getKey_setKey, if_neg hk]
      exact getKey_dictUpdate _ _ _ hnd

/-- C6 witness: a text without front matter fails to load; a well-formed
text splits into leading part, front matter and body, loads successfully,
keeps the body under "markdown", takes "title" from the front matter and
keeps the default "id". -/
theorem C6_witness :
    countOccStr "---" (pyStrip "no front matter") < 2
    ∧ load_markdown exYamlC6 ⟨["blog"], "post.md"⟩ "no front matter" = Except.error ()
    ∧ pySplitStr "---" (some 2) (pyStrip "---\ntitle: T\n---\nHello")
        = ["", "\ntitle: T\n", "\nHello"]
    ∧ load_markdown exYamlC6 ⟨["blog"], "post.md"⟩ "---\ntitle: T\n---\nHello"
        = Except.ok (setKey (dictUpdate (md_defaults ⟨["blog"], "post.md"⟩)
            (exYamlC6 (pyStrip "\ntitle: T\n"))) "markdown" "\nHello")
    ∧ getKey (setKey (dictUpdate (md_defaults ⟨["blog"], "post.md"⟩)
        (exYamlC6 (pyStrip "\ntitle: T\n"))) "markdown" "\nHello") "markdown" = some "\nHello"
    ∧ getKey (setKey (dictUpdate (md_defaults ⟨["blog"], "post.md"⟩)
        (exYamlC6 (pyStrip "\ntitle: T\n"))) "markdown" "\nHello") "title" = some "T"
    ∧ getKey (setKey (dictUpdate (md_defaults ⟨["blog"], "post.md"⟩)
        (exYamlC6 (pyStrip "\ntitle: T\n"))) "markdown" "\nHello") "id" = some "blog/post" := by
  refine ⟨by decide, ?_, by decide, ?_, ?_, by decide, by decide⟩
  · exact C6_markdown_loader.1 exYamlC6 ⟨["blog"], "post.md"⟩ "no front matter" (by decide)
  · exact (C6_markdown_loader.2.2 exYamlC6 ⟨["blog"], "post.md"⟩ "---\ntitle: T\n---\nHello"
      "" "\ntitle: T\n" "\nHello" (by decide)).1
  · exact (C6_markdown_loader.2.2 exYamlC6 ⟨["blog"], "post.md"⟩ "---\ntitle: T\n---\nHello"
      "" "\ntitle: T\n" "\nHello" (by decide)).2.1

/-- Every file yielded by the non-hidden walk has only non-hidden
components below the starting prefix. -/
theorem walkList_not_hidden (pre : List String) (ts : List FSTree) (p : FPath)
    (hmem : p ∈ walkList pre ts) :
    (∃ q, p.dirs = pre ++ q ∧ q.all (fun c => !isHidden c) = true)
    ∧ isHidden p.name = false := by
  induction pre, ts using walkList.induct with
  | case1 pre => simp [walkList] at hmem
  | case2 pre name rest ih =>
    rw [walkList, List.mem_append] at hmem
    rcases hmem with h | h
    · by_cases hh : isHidden name
      · simp [hh] at h
      · simp only [hh, if_false, Bool.false_eq_true, List.mem_singleton] at h
        subst h
        exact ⟨⟨[], by simp⟩, by simpa using hh⟩
    · exact ih h
  | case3 pre name cs rest ih1 ih2 =>
    rw [walkList, List.mem_append] at hmem
    rcases hmem with h | h
    · by_cases hh : isHidden name
      · simp [hh] at h
      · rw [if_neg hh] at h
        obtain ⟨⟨q, hq1, hq2⟩, hn⟩ := ih1 h
        refine ⟨⟨name :: q, ?_, ?_⟩, hn⟩
        · simpa using hq1
        · simp only [List.all_cons, hq2, Bool.and_true]
          simpa using hh
    · exact ih2 h

/-- C3 amended: for every crawl input, a file that is not among the extra
copy paths and that matches an ignore entry or has a hidden/reserved
component appears in no category of the manifest, including copy; and every
file not among the extra copy paths appears in at most one category.  (The
extra copy paths themselves are exempt: the code adds them to the copy
bucket unconditionally, before any filtering.) -/
theorem C3_crawl_exclusion_amended :
    ∀ (root : List FSTree) (ignore : List String) (copyExtra : List FPath) (p : FPath),
      p ∉ copyExtra →
      ((fpathStr p ∈ ignore ∨ hasHiddenComponent p = true) →
        numCategoriesWith (crawl root ignore copyExtra) p = 0)
      ∧ numCategoriesWith (crawl root ignore copyExtra) p ≤ 1 := by
  intro root ignore copyExtra p hpc
  have hnotmem_contains : ∀ (l : List FPath), p ∉ l → l.contains p = false := by
    intro l hl
    cases hx : l.contains p
    · rfl
    · exact absurd (by simpa using hx) hl
  have hcopyfalse : ∀ (l : List FPath), p ∉ l → ((copyExtra ++ l).contains p) = false := by
    intro l hl
    apply hnotmem_contains
    intro hin
    rcases List.mem_append.mp hin with h | h
    · exact hpc h
    · exact hl h
  have hbound : ∀ b : Bool, b.toNat ≤ 1 := by
    intro b
    cases b <;> simp
  have key : p ∉ crawl_files root ignore →
      numCategoriesWith (crawl root ignore copyExtra) p = 0 := by
    intro hnf
    have hall : ∀ c : Cat,
        ((crawl_files root ignore).filter
          (fun q => formatOf (nameSuffix q.name) == some c)).contains p = false := by
      intro c
      apply hnotmem_contains
      intro hin
      exact hnf (List.mem_filter.mp hin).1
    have hnone :
        ((crawl_files root ignore).filter
          (fun q => formatOf (nameSuffix q.name) == none)).contains p = false := by
      apply hnotmem_contains
      intro hin
      exact hnf (List.mem_filter.mp hin).1
    have hcopy : ((copyExtra
        ++ (crawl_files root ignore).filter
          (fun q => formatOf (nameSuffix q.name) == none)).contains p) = false := by
      apply hcopyfalse
      intro hin
      exact hnf (List.mem_filter.mp hin).1
    simp only [numCategoriesWith, crawl, hcopy, hall, hnone, Bool.toNat_false]
  constructor
  · intro hexcl
    apply key
    intro hin
    obtain ⟨hwalk, hkeep⟩ := List.mem_filter.mp hin
    rcases hexcl with hig | hhid
    · have hcf : ignore.contains (fpathStr p) = false := by
        simpa using hkeep
      have hnotin : fpathStr p ∉ ignore := by
        intro hmm
        rw [(by simpa using hmm : ignore.contains (fpathStr p) = true)] at hcf
        cases hcf
      exact hnotin hig
    · have hclean := walkList_not_hidden [] root p hwalk
      obtain ⟨⟨q, hq1, hq2⟩, hn⟩ := hclean
      have hfalse : hasHiddenComponent p = false := by
        unfold hasHiddenComponent
        rw [hq1]
        simp only [List.nil_append, List.any_append, List.any_cons, List.any_nil]
        have h1 : q.any isHidden = false := by
          cases hx : q.any isHidden
          · rfl
          · obtain ⟨c, hc1, hc2⟩ := List.any_eq_true.mp hx
            have := List.all_eq_true.mp hq2 c hc1
            simp [hc2] at this
        simp [h1, hn]
      rw [hfalse] at hhid
      cases hhid
  · by_cases hpf : p ∈ crawl_files root ignore
    · rcases hfmt : formatOf (nameSuffix p.name) with _ | c
      · have hall : ∀ c : Cat,
            ((crawl_files root ignore).filter
              (fun q => formatOf (nameSuffix q.name) == some c)).contains p = false := by
          intro c
          apply hnotmem_contains
          intro hin
          have := (List.mem_filter.mp hin).2
          rw [hfmt] at this
          simp at this
        simp only [numCategoriesWith, crawl, hall, Bool.toNat_false]
        have := hbound ((copyExtra
          ++ (crawl_files root ignore).filter
            (fun q => formatOf (nameSuffix q.name) == none)).contains p)
        omega
      · have hcopy : ((copyExtra
            ++ (crawl_files root ignore).filter
              (fun q => formatOf (nameSuffix q.name) == none)).contains p) = false := by
          apply hcopyfalse
          intro hin
          have := (List.mem_filter.mp hin).2
          rw [hfmt] at this
          simp at this
        have hothers : ∀ c' : Cat, c' ≠ c →
            ((crawl_files root ignore).filter
              (fun q => formatOf (nameSuffix q.name) == some c')).contains p = false := by
          intro c' hcc
          apply hnotmem_contains
          intro hin
          have := (List.mem_filter.mp hin).2
          rw [hfmt] at this
          simp only [beq_iff_eq, Option.some_inj] at this
          exact hcc this.symm
        have hb : ∀ c' : Cat,
            (((crawl_files root ignore).filter
              (fun q => formatOf (nameSuffix q.name) == some c')).contains p).toNat ≤ 1 :=
          fun c' => hbound _
        cases c with
        | markdown =>
          simp only [numCategoriesWith, crawl, hcopy,
            hothers Cat.ipynb (by intro h; cases h),
            hothers Cat.json (by intro h; cases h),
            hothers Cat.yaml (by intro h; cases h),
            hothers Cat.bibtex (by intro h; cases h), Bool.toNat_false]
          have := hb Cat.markdown
          omega
        | json =>
          simp only [numCategoriesWith, crawl, hcopy,
            hothers Cat.markdown (by intro h; cases h),
            hothers Cat.ipynb (by intro h; cases h),
            hothers Cat.yaml (by intro h; cases h),
            hothers Cat.bibtex (by intro h; cases h), Bool.toNat_false]
          have := hb Cat.json
          omega
        | yaml =>
          simp only [numCategoriesWith, crawl, hcopy,
            hothers Cat.markdown (by intro h; cases h),
            hothers Cat.ipynb (by intro h; cases h),
            hothers Cat.json (by intro h; cases h),
            hothers Cat.bibtex (by intro h; cases h), Bool.toNat_false]
          have := hb Cat.yaml
          omega
        | ipynb =>
          simp only [numCategoriesWith, crawl, hcopy,
            hothers Cat.markdown (by intro h; cases h),
            hothers Cat.json (by intro h; cases h),
            hothers Cat.yaml (by intro h; cases h),
            hothers Cat.bibtex (by intro h; cases h), Bool.toNat_false]
          have := hb Cat.ipynb
          omega
        | bibtex =>
          simp only [numCategoriesWith, crawl, hcopy,
            hothers Cat.markdown (by intro h; cases h),
            hothers Cat.json (by intro h; cases h),
            hothers Cat.yaml (by intro h; cases h),
            hothers Cat.ipynb (by intro h; cases h), Bool.toNat_false]
          have := hb Cat.bibtex
          omega
    · rw [key hpf]
      omega

/-- C3 counterexample: an extra copy path whose string matches an ignore
entry still appears in the returned manifest's copy category, so the claim
that an ignore-matched file appears in no category (including copy) for
every input is false. -/
theorem C3_counterexample :
    "a.md" ∈ ["a.md"]
    ∧ FPath.mk [] "a.md" ∈ (crawl [FSTree.file "a.md"] ["a.md"] [⟨[], "a.md"⟩]).copy
    ∧ numCategoriesWith (crawl [FSTree.file "a.md"] ["a.md"] [⟨[], "a.md"⟩]) ⟨[], "a.md"⟩ = 1 := by
  have hhid : isHidden "a.md" = false := by decide
  have hwalk : walkList [] [FSTree.file "a.md"] = [FPath.mk [] "a.md"] := by
    simp only [walkList, hhid, Bool.false_eq_true, if_false]
    rfl
  have hcf : crawl_files [FSTree.file "a.md"] ["a.md"] = [] := by
    unfold crawl_files
    rw [hwalk]
    decide
  refine ⟨by decide, ?_, ?_⟩
  · simp only [crawl, hcf]
    decide
  · simp only [numCategoriesWith, crawl, hcf]
    decide

/-- C3 witness: in a tree with one markdown file that matches the ignore
list and an empty extra-copy list, the file appears in zero categories (and
at most one). -/
theorem C3_witness :
    FPath.mk [] "a.md" ∉ ([] : List FPath)
    ∧ fpathStr ⟨[], "a.md"⟩ ∈ ["a.md"]
    ∧ numCategoriesWith (crawl [FSTree.file "a.md"] ["a.md"] []) ⟨[], "a.md"⟩ = 0
    ∧ numCategoriesWith (crawl [FSTree.file "a.md"] ["a.md"] []) ⟨[], "a.md"⟩ ≤ 1 := by
  have h := C3_crawl_exclusion_amended [FSTree.file "a.md"] ["a.md"] [] ⟨[], "a.md"⟩
    (by decide)
  exact ⟨by decide, by decide, h.1 (Or.inl (by decide)), h.2⟩

/-- The re-raise branch of the retry loop is unreachable whenever the
attempt counter plus the remaining iterations stay within the attempt
budget, as they do on every real call. -/
theorem serve_go_not_raised (bindOk : Nat → Bool) (m : Nat) :
    ∀ (r a port : Nat), a + r ≤ m → (serve_go bindOk m r a port).isRaised = false := by
  intro r
  induction r with
  | zero =>
    intro a port h
    rfl
  | succ r ih =>
    intro a port h
    by_cases hb : bindOk port
    · simp [serve_go, hb, ServeResult.isRaised]
    · have hne : ¬ (a = m + 1) := by omega
      simp only [serve_go, hb, Bool.false_eq_true, if_false, if_neg hne]
      exact ih (a + 1) (port + 1) (by omega)

/-- C7: the dev server retries successive ports (default 5500, at most 10
attempts; a single attempt when a port is given), but it never surfaces a
fatal error: the re-raise guard `attempt == max_attempts + 1` is unreachable,
so when every attempt fails `serve` returns silently instead of raising.
The claim's "fatal error iff attempts exhausted" is violated at the
exhaustion inputs evaluated here. -/
theorem C7_serve_bind :
    serve (fun _ => false) none = ServeResult.returned
    ∧ serve (fun _ => false) (some 8000) = ServeResult.returned
    ∧ (∀ (bindOk : Nat → Bool) (port : Option Nat), (serve bindOk port).isRaised = false)
    ∧ serve (fun q => q == 5503) none = ServeResult.served 5503 := by
  refine ⟨by decide, by decide, ?_, by decide⟩
  intro bindOk port
  cases port with
  | none => exact serve_go_not_raised bindOk 10 10 0 5500 (by omega)
  | some p => exact serve_go_not_raised bindOk 1 1 0 p (by omega)

/-- C9 counterexample: with a template engine whose evaluation changes the
body (as Jinja does on any template expression), a notebook-derived page's
body after the first render pass differs from the loader's body: notebook
pages do not skip body expansion. -/
theorem C9_counterexample :
    render_markdown_pass (fun s => String.append s "!") [("nb", RPage.mk "ipynb" "BODY")]
      = [("nb", RPage.mk "ipynb" "BODY!")]
    ∧ RPage.mk "ipynb" "BODY!" ≠ RPage.mk "ipynb" "BODY" := by
  exact ⟨rfl, by decide⟩

/-- C9 amended: the body-expansion pass applies the template evaluation to
every page's body regardless of page type; in particular a notebook-derived
page's body entering markup conversion is the template expansion of the
loader's body, not necessarily the loader's body unchanged. -/
theorem C9_render_all_pages_amended :
    ∀ (expand : String → String) (site : List (String × RPage)) (k : String) (p : RPage),
      (k, p) ∈ site →
      (k, RPage.mk p.ptype (expand p.markdown)) ∈ render_markdown_pass expand site := by
  intro expand site k p hmem
  exact List.mem_map_of_mem
    (fun kv => (kv.1, RPage.mk kv.2.ptype (expand kv.2.markdown))) hmem

/-- C9 witness: the amended statement at a concrete notebook page. -/
theorem C9_witness :
    ("nb", RPage.mk "ipynb" "BODY") ∈ [("nb", RPage.mk "ipynb" "BODY")]
    ∧ ("nb", RPage.mk "ipynb" "BODY!")
        ∈ render_markdown_pass (fun s => String.append s "!")
            [("nb", RPage.mk "ipynb" "BODY")] := by
  constructor
  · decide
  · exact C9_render_all_pages_amended (fun s => String.append s "!")
      [("nb", RPage.mk "ipynb" "BODY")] "nb" (RPage.mk "ipynb" "BODY") (by decide)

/-- Under well-formed mime types the failing image scan agrees with the
total first-image selector. -/
theorem findFirstImage_eq (data : List (String × String))
    (h : data.all (fun kv => (pySplitStr "/" none kv.1).length == 2) = true) :
    findFirstImage data = Except.ok (firstImageInData data) := by
  induction data with
  | nil => rfl
  | cons kv rest ih =>
    obtain ⟨mime, payload⟩ := kv
    simp only [List.all_cons, Bool.and_eq_true] at h
    have hlen : (pySplitStr "/" none mime).length = 2 := by simpa using h.1
    rcases hsp : pySplitStr "/" none mime with _ | ⟨a, _ | ⟨b, t⟩⟩
    · rw [hsp] at hlen
      simp at hlen
    · rw [hsp] at hlen
      simp at hlen
    · rw [hsp] at hlen
      simp only [List.length_cons] at hlen
      have ht : t = [] := List.length_eq_zero.mp (by omega)
      subst ht
      simp only [findFirstImage, firstImageInData, hsp]
      by_cases hi : (a == "image") = true
      · rw [if_pos hi, if_pos hi]
      · rw [if_neg hi, if_neg hi]
        exact ih h.2

/-- Once a display artifact exists, later outputs without HTML payloads
leave the display and the images untouched (they may only extend the
pre-formatted text). -/
theorem processOutputs_keep_disp (fm bd : String → String) (dir : String) (i : Nat) :
    ∀ (outs : List NBOutput) (st : OutState) (d : String),
      st.disp = some d →
      (∀ o ∈ outs, isDisplayType o = true → hasKey o.data "text/html" = false) →
      ∃ pre2, processOutputs fm bd dir i outs st = Except.ok ⟨pre2, some d, st.imgs⟩ := by
  intro outs
  induction outs with
  | nil =>
    intro st d hd _
    refine ⟨st.pre, ?_⟩
    rw [← hd]
    rfl
  | cons o rest ih =>
    intro st d hd hnohtml
    have hrest : ∀ o2 ∈ rest, isDisplayType o2 = true → hasKey o2.data "text/html" = false :=
      fun o2 ho2 => hnohtml o2 (List.mem_cons_of_mem _ ho2)
    by_cases h1 : o.output_type = "stream"
    · have hstep : processOutputs fm bd dir i (o :: rest) st
          = processOutputs fm bd dir i rest ⟨st.pre ++ [o.text], st.disp, st.imgs⟩ := by
        have hpo : processOutput fm bd dir i st o
            = Except.ok ⟨st.pre ++ [o.text], st.disp, st.imgs⟩ := by
          unfold processOutput
          rw [if_pos h1]
        simp only [processOutputs, hpo]
      rw [hstep]
      exact ih ⟨st.pre ++ [o.text], st.disp, st.imgs⟩ d hd hrest
    · by_cases h2 : o.output_type = "error"
      · have hstep : processOutputs fm bd dir i (o :: rest) st
            = processOutputs fm bd dir i rest
                ⟨st.pre ++ [o.ename ++ ": " ++ o.evalue,
                  "Traceback:\n" ++ String.intercalate "\n" o.traceback],
                 st.disp, st.imgs⟩ := by
          have hpo : processOutput fm bd dir i st o
              = Except.ok ⟨st.pre ++ [o.ename ++ ": " ++ o.evalue,
                  "Traceback:\n" ++ String.intercalate "\n" o.traceback],
                 st.disp, st.imgs⟩ := by
            unfold processOutput
            rw [if_neg h1, if_pos h2]
          simp only [processOutputs, hpo]
        rw [hstep]
        exact ih _ d hd hrest
      · by_cases h3 : o.output_type = "display_data" ∨ o.output_type = "execute_result"
        · have hdt : isDisplayType o = true := by
            unfold isDisplayType
            rcases h3 with h | h <;> simp [h]
          have hh : hasKey o.data "text/html" = false := hnohtml o (List.mem_cons_self o rest) hdt
          by_cases h4 : hasKey o.data "text/plain" = true
          · have hstep : processOutputs fm bd dir i (o :: rest) st
                = processOutputs fm bd dir i rest
                    ⟨st.pre ++ [(getKey o.data "text/plain").getD ""], some d, st.imgs⟩ := by
              have hpo : processOutput fm bd dir i st o
                  = Except.ok ⟨st.pre ++ [(getKey o.data "text/plain").getD ""],
                      some d, st.imgs⟩ := by
                unfold processOutput
                rw [if_neg h1, if_neg h2, if_pos h3, if_neg (by simp [hh]), if_pos h4, hd]
              simp only [processOutputs, hpo]
            rw [hstep]
            obtain ⟨pre2, hp⟩ := ih ⟨st.pre ++ [(getKey o.data "text/plain").getD ""],
              some d, st.imgs⟩ d rfl hrest
            exact ⟨pre2, hp⟩
          · have hstep : processOutputs fm bd dir i (o :: rest) st
                = processOutputs fm bd dir i rest ⟨st.pre, some d, st.imgs⟩ := by
              have hpo : processOutput fm bd dir i st o
                  = Except.ok ⟨st.pre, some d, st.imgs⟩ := by
                unfold processOutput
                rw [if_neg h1, if_neg h2, if_pos h3, if_neg (by simp [hh]),
                  if_neg h4, hd]
              simp only [processOutputs, hpo]
            rw [hstep]
            obtain ⟨pre2, hp⟩ := ih ⟨st.pre, some d, st.imgs⟩ d rfl hrest
            exact ⟨pre2, hp⟩
        · have hstep : processOutputs fm bd dir i (o :: rest) st
              = processOutputs fm bd dir i rest st := by
            have hpo : processOutput fm bd dir i st o = Except.ok st := by
              unfold processOutput
              rw [if_neg h1, if_neg h2, if_neg h3]
            simp only [processOutputs, hpo]
          rw [hstep]
          exact ih st d hd hrest

/-- Unfolding equation for `firstDisplayImage` on a cons cell. -/
theorem firstDisplayImage_cons (o : NBOutput) (rest : List NBOutput) :
    firstDisplayImage (o :: rest)
      = if isDisplayType o = true then
          match firstImageInData o.data with
          | some r => some r
          | none => firstDisplayImage rest
        else firstDisplayImage rest := rfl

/-- Scanning a code cell's outputs with no display artifact yet: if no
display output carries an image, the display stays empty and the images are
untouched; otherwise the first image mime of the first image-bearing display
output is stored (exactly once) and referenced from the display.  Display
outputs are assumed to carry neither HTML nor plain-text payloads and only
well-formed mime types, as in claim C8. -/
theorem processOutputs_scan (fm bd : String → String) (dir : String) (i : Nat) :
    ∀ (outs : List NBOutput) (st : OutState),
      st.disp = none →
      (∀ o ∈ outs, isDisplayType o = true →
        hasKey o.data "text/html" = false ∧ hasKey o.data "text/plain" = false
        ∧ wellFormedMimes o = true) →
      (firstDisplayImage outs = none →
        ∃ pre2, processOutputs fm bd dir i outs st = Except.ok ⟨pre2, none, st.imgs⟩)
      ∧ (∀ sub payload, firstDisplayImage outs = some (sub, payload) →
        ∃ pre2, processOutputs fm bd dir i outs st
          = Except.ok ⟨pre2, some (imgRef (imagePathOf dir i sub)),
              setKey st.imgs (imagePathOf dir i sub) (bd (base64Payload payload))⟩) := by
  intro outs
  induction outs with
  | nil =>
    intro st hd _
    constructor
    · intro _
      refine ⟨st.pre, ?_⟩
      rw [← hd]
      rfl
    · intro sub payload hsome
      cases hsome
  | cons o rest ih =>
    intro st hd hyps
    have hrest : ∀ o2 ∈ rest, isDisplayType o2 = true →
        hasKey o2.data "text/html" = false ∧ hasKey o2.data "text/plain" = false
        ∧ wellFormedMimes o2 = true :=
      fun o2 ho2 => hyps o2 (List.mem_cons_of_mem _ ho2)
    by_cases h1 : o.output_type = "stream"
    · have hdt : isDisplayType o = false := by
        unfold isDisplayType
        rw [h1]
        decide
      have hfd : firstDisplayImage (o :: rest) = firstDisplayImage rest := by
        rw [firstDisplayImage_cons, hdt]
        simp
      have hstep : processOutputs fm bd dir i (o :: rest) st
          = processOutputs fm bd dir i rest ⟨st.pre ++ [o.text], st.disp, st.imgs⟩ := by
        have hpo : processOutput fm bd dir i st o
            = Except.ok ⟨st.pre ++ [o.text], st.disp, st.imgs⟩ := by
          unfold processOutput
          rw [if_pos h1]
        simp only [processOutputs, hpo]
      rw [hfd, hstep]
      exact ih ⟨st.pre ++ [o.text], st.disp, st.imgs⟩ hd hrest
    · by_cases h2 : o.output_type = "error"
      · have hdt : isDisplayType o = false := by
          unfold isDisplayType
          rw [h2]
          decide
        have hfd : firstDisplayImage (o :: rest) = firstDisplayImage rest := by
          rw [firstDisplayImage_cons, hdt]
          simp
        have hstep : processOutputs fm bd dir i (o :: rest) st
            = processOutputs fm bd dir i rest
                ⟨st.pre ++ [o.ename ++ ": " ++ o.evalue,
                  "Traceback:\n" ++ String.intercalate "\n" o.traceback],
                 st.disp, st.imgs⟩ := by
          have hpo : processOutput fm bd dir i st o
              = Except.ok ⟨st.pre ++ [o.ename ++ ": " ++ o.evalue,
                  "Traceback:\n" ++ String.intercalate "\n" o.traceback],
                 st.disp, st.imgs⟩ := by
            unfold processOutput
            rw [if_neg h1, if_pos h2]
          simp only [processOutputs, hpo]
        rw [hfd, hstep]
        exact ih _ hd hrest
      · by_cases h3 : o.output_type = "display_data" ∨ o.output_type = "execute_result"
        · have hdt : isDisplayType o = true := by
            unfold isDisplayType
            rcases h3 with h | h <;> simp [h]
          obtain ⟨hh, hp, hwf⟩ := hyps o (List.mem_cons_self o rest) hdt
          have hfi : findFirstImage o.data = Except.ok (firstImageInData o.data) :=
            findFirstImage_eq o.data hwf
          rcases himg : firstImageInData o.data with _ | ⟨sub, payload⟩
          · have hfd : firstDisplayImage (o :: rest) = firstDisplayImage rest := by
              rw [firstDisplayImage_cons, hdt, himg]
              simp
            have hstep : processOutputs fm bd dir i (o :: rest) st
                = processOutputs fm bd dir i rest st := by
              have hpo : processOutput fm bd dir i st o = Except.ok st := by
                unfold processOutput
                rw [if_neg h1, if_neg h2, if_pos h3, if_neg (by simp [hh]),
                  if_neg (by simp [hp]), hd, hfi, himg]
              simp only [processOutputs, hpo]
            rw [hfd, hstep]
            exact ih st hd hrest
          · have hfd : firstDisplayImage (o :: rest) = some (sub, payload) := by
              rw [firstDisplayImage_cons, hdt, himg]
              simp
            have hstep : processOutputs fm bd dir i (o :: rest) st
                = processOutputs fm bd dir i rest
                    ⟨st.pre, some (imgRef (imagePathOf dir i sub)),
                      setKey st.imgs (imagePathOf dir i sub)
                        (bd (base64Payload payload))⟩ := by
              have hpo : processOutput fm bd dir i st o
                  = Except.ok ⟨st.pre, some (imgRef (imagePathOf dir i sub)),
                      setKey st.imgs (imagePathOf dir i sub)
                        (bd (base64Payload payload))⟩ := by
                unfold processOutput
                rw [if_neg h1, if_neg h2, if_pos h3, if_neg (by simp [hh]),
                  if_neg (by simp [hp]), hd, hfi, himg]
              simp only [processOutputs, hpo]
            constructor
            · intro hnone
              rw [hfd] at hnone
              cases hnone
            · intro sub2 payload2 hsome
              rw [hfd] at hsome
              cases hsome
              rw [hstep]
              have hkeep := processOutputs_keep_disp fm bd dir i rest
                ⟨st.pre, some (imgRef (imagePathOf dir i sub)),
                  setKey st.imgs (imagePathOf dir i sub) (bd (base64Payload payload))⟩
                (imgRef (imagePathOf dir i sub)) rfl
                (fun o2 ho2 hdt2 => (hrest o2 ho2 hdt2).1)
              obtain ⟨pre2, hkp⟩ := hkeep
              exact ⟨pre2, hkp⟩
        · have hdt : isDisplayType o = false := by
            unfold isDisplayType
            have hx : (o.output_type == "display_data") = false := by
              rw [beq_eq_false_iff_ne]
              intro h
              exact h3 (Or.inl h)
            have hy : (o.output_type == "execute_result") = false := by
              rw [beq_eq_false_iff_ne]
              intro h
              exact h3 (Or.inr h)
            rw [hx, hy]
            rfl
          have hfd : firstDisplayImage (o :: rest) = firstDisplayImage rest := by
            rw [firstDisplayImage_cons, hdt]
            simp
          have hstep : processOutputs fm bd dir i (o :: rest) st
              = processOutputs fm bd dir i rest st := by
            have hpo : processOutput fm bd dir i st o = Except.ok st := by
              unfold processOutput
              rw [if_neg h1, if_neg h2, if_neg h3]
            simp only [processOutputs, hpo]
          rw [hfd, hstep]
          exact ih st hd hrest

/-- C8: for every code cell whose outputs contain an image-bearing display
output and no HTML and no plain-text payloads (with well-formed mime types),
the loader produces exactly one image entry, keyed by the path derived from
the per-notebook image directory and the cell index with the extension of
the first image mime (in listed order) of the first image-bearing display
output, and the cell's Markdown pieces contain exactly one image reference
pointing at that same path. -/
theorem C8_notebook_image :
    ∀ (fm bd : String → String) (dir lang : String) (i : Nat) (cell : NBCell)
      (sub payload : String),
      cell.cell_type = "code" →
      (pyStrip cell.source).data.length ≠ 0 →
      cell.tags.contains "skip" = false →
      (∀ o ∈ cell.outputs, isDisplayType o = true →
        hasKey o.data "text/html" = false ∧ hasKey o.data "text/plain" = false
        ∧ wellFormedMimes o = true) →
      firstDisplayImage cell.outputs = some (sub, payload) →
      ∃ pieces,
        processCell fm bd dir lang i cell
          = Except.ok (pieces, [(imagePathOf dir i sub, bd (base64Payload payload))])
        ∧ pieces.count (imgRef (imagePathOf dir i sub)) = 1 := by
  intro fm bd dir lang i cell sub payload hcode hsrc hskip hdisp hfirst
  obtain ⟨pre2, hrun⟩ :=
    (processOutputs_scan fm bd dir i cell.outputs ⟨[], none, []⟩ rfl hdisp).2
      sub payload hfirst
  have hc2 : ¬ (cell.tags.contains "skip" = true) := by
    rw [hskip]
    simp
  have hc3 : ¬ (cell.cell_type = "markdown" ∨ cell.cell_type = "raw") := by
    rw [hcode]
    decide
  refine ⟨["```" ++ lang ++ "\n" ++ cell.source ++ "\n```"]
    ++ (if pre2.isEmpty then [] else ["```\n" ++ String.intercalate "\n" pre2 ++ "\n```"])
    ++ [imgRef (imagePathOf dir i sub)], ?_, ?_⟩
  · unfold processCell
    rw [if_neg hsrc, if_neg hc2, if_neg hc3, if_pos hcode, hrun]
    rfl
  · have hne1 : imgRef (imagePathOf dir i sub)
        ∉ ["```" ++ lang ++ "\n" ++ cell.source ++ "\n```"] := by
      intro hmem
      have heq : imgRef (imagePathOf dir i sub)
          = "```" ++ lang ++ "\n" ++ cell.source ++ "\n```" := by
        simpa using hmem
      have h2 : ((imgRef (imagePathOf dir i sub)).data.headD ' ')
          = (("```" ++ lang ++ "\n" ++ cell.source ++ "\n```").data.headD ' ') := by
        rw [heq]
      have h3 : ((imgRef (imagePathOf dir i sub)).data.headD ' ') = '!' := rfl
      have h4 : (("```" ++ lang ++ "\n" ++ cell.source ++ "\n```").data.headD ' ')
          = ("```".data.headD ' ') := rfl
      rw [h3, h4] at h2
      exact absurd h2 (by decide)
    have hne2 : imgRef (imagePathOf dir i sub)
        ∉ (if pre2.isEmpty then ([] : List String)
           else ["```\n" ++ String.intercalate "\n" pre2 ++ "\n```"]) := by
      by_cases hp : pre2.isEmpty
      · rw [if_pos hp]
        simp
      · rw [if_neg hp]
        intro hmem
        have heq : imgRef (imagePathOf dir i sub)
            = "```\n" ++ String.intercalate "\n" pre2 ++ "\n```" := by
          simpa using hmem
        have h2 : ((imgRef (imagePathOf dir i sub)).data.headD ' ')
            = (("```\n" ++ String.intercalate "\n" pre2 ++ "\n```").data.headD ' ') := by
          rw [heq]
        have h3 : ((imgRef (imagePathOf dir i sub)).data.headD ' ') = '!' := rfl
        have h4 : (("```\n" ++ String.intercalate "\n" pre2 ++ "\n```").data.headD ' ')
            = ("```".data.headD ' ') := rfl
        rw [h3, h4] at h2
        exact absurd h2 (by decide)
    rw [List.count_append, List.count_append]
    rw [List.count_eq_zero.mpr hne1, List.count_eq_zero.mpr hne2]
    simp

/-- C8 witness: a one-output code cell with a single png image display and
no HTML or plain-text payloads produces exactly the fenced source plus one
image reference, and exactly one image entry under
"nb_images/cell0_image.png". -/
theorem C8_witness :
    exCellC8.cell_type = "code"
    ∧ (pyStrip exCellC8.source).data.length ≠ 0
    ∧ exCellC8.tags.contains "skip" = false
    ∧ firstDisplayImage exCellC8.outputs = some ("png", "base64,AAA")
    ∧ processCell exFmC8 exBdC8 "nb_images" "python" 0 exCellC8
        = Except.ok (["```python\nplot()\n```", imgRef "nb_images/cell0_image.png"],
            [("nb_images/cell0_image.png", "AAA")])
    ∧ (∃ pieces,
        processCell exFmC8 exBdC8 "nb_images" "python" 0 exCellC8
          = Except.ok (pieces,
              [(imagePathOf "nb_images" 0 "png", exBdC8 (base64Payload "base64,AAA"))])
        ∧ pieces.count (imgRef (imagePathOf "nb_images" 0 "png")) = 1) := by
  refine ⟨rfl, by decide, rfl, by decide, rfl, ?_⟩
  exact C8_notebook_image exFmC8 exBdC8 "nb_images" "python" 0 exCellC8 "png" "base64,AAA"
    rfl (by decide) rfl (by decide) (by decide)
